import Mathlib

/-!
# Verification of the `yt-search` background download manager

Shallow embedding of `src/modules/downloadManager.ts`.

The manager keeps an in-memory `Map<string, DownloadJob>` (modelled as an
association list with JS `Map.set` semantics: replacing in place keeps the
insertion position, a new key is appended) and a `Set<string>` of active job
ids (modelled as a duplicate-free list in insertion order).

Timestamps (`Date` values) are modelled as `Int` milliseconds; JS numbers
carrying progress percentages are modelled as exact rationals (`Rat`), which
matches `parseFloat` on the decimal captures produced by the progress regex.

The asynchronous behaviour of `executeDownload` is modelled by explicit state
passing: the synchronous part of `startDownload`/`executeDownload` is one
function, and each event-handler closure (`stdout data`, `stderr data`,
`close`, `error`) is a function from the closure state (the captured `job`
object and the shared `output` buffer) and the manager state to the updated
states plus the list of emitted events.
-/

set_option maxHeartbeats 1000000
set_option maxRecDepth 100000

namespace DM

/-- Values `'video' | 'audio' | 'search'` from the `DownloadJob` interface. -/
inductive JobType where
  | video
  | audio
  | search
deriving DecidableEq, Repr

/-- The string a `JobType` renders as in a JS template literal. -/
def JobType.str : JobType → String
  | .video => "video"
  | .audio => "audio"
  | .search => "search"

/-- States `'pending' | 'downloading' | 'completed' | 'failed'` from `DownloadJob`. -/
inductive JobStatus where
  | pending
  | downloading
  | completed
  | failed
deriving DecidableEq, Repr

/-- The `DownloadJob` interface of `downloadManager.ts`. Optional fields are
`Option`s; `Date` fields are `Int` milliseconds. -/
structure DownloadJob where
  id : String
  url : String
  jobType : JobType
  status : JobStatus
  progress : Option Rat := none
  filename : Option String := none
  error : Option String := none
  startTime : Int
  endTime : Option Int := none
  outputPath : String
deriving DecidableEq, Repr

/-- The `DownloadProgress` interface (payload of the `progress` event). -/
structure DownloadProgress where
  id : String
  progress : Rat
  status : String
  filename : Option String := none
deriving DecidableEq, Repr

/-- The three events the manager emits (`progress`, `completed`, `failed`),
the latter two carrying the full job record. -/
inductive Event where
  | progress (p : DownloadProgress)
  | completed (j : DownloadJob)
  | failed (j : DownloadJob)
deriving DecidableEq, Repr

/-- Lookup in the job map: the value of the first binding of `k`
(JS `Map.get`). -/
def mapGet (l : List (String × DownloadJob)) (k : String) : Option DownloadJob :=
  match l with
  | [] => none
  | (k0, v0) :: rest => if k0 = k then some v0 else mapGet rest k

/-- JS `Map.set`: replace in place if the key is present, else append. -/
def mapSet (l : List (String × DownloadJob)) (k : String) (v : DownloadJob) :
    List (String × DownloadJob) :=
  match l with
  | [] => [(k, v)]
  | (k0, v0) :: rest => if k0 = k then (k, v) :: rest else (k0, v0) :: mapSet rest k v

/-- JS `Set.add`: no-op if present, else append. -/
def setAdd (l : List String) (k : String) : List String :=
  if k ∈ l then l else l ++ [k]

/-- JS `Set.delete`: remove the element. -/
def setDelete (l : List String) (k : String) : List String :=
  l.filter (fun x => x ≠ k)

/-- The mutable state of a `DownloadManager` instance:
`private jobs: Map<string, DownloadJob>` and
`private activeDownloads: Set<string>`. -/
structure Manager where
  jobs : List (String × DownloadJob)
  activeDownloads : List String
deriving DecidableEq, Repr

/-- The freshly constructed manager (`new DownloadManager()`). -/
def Manager.empty : Manager := { jobs := [], activeDownloads := [] }

/-! ## Progress Interpreter

The stdout handler runs two regexes over each freshly arrived chunk:
`/(\d+(?:\.\d+)?)%/` and `/\[download\] Destination: (.+)/`, each via
`String.match`, i.e. the leftmost match wins.
-/

/-- A percentage capture: the integer digits and the (possibly empty)
fractional digits of the group `(\d+(?:\.\d+)?)`. -/
abbrev PercentCap := List Char × List Char

/-- Try to match `(\d+(?:\.\d+)?)%` anchored at the head of `l`.

Backtracking note: if the maximal digit run (resp. maximal fractional run)
is not followed by the required character, every shorter run ends on a digit
and fails too, so only the maximal runs need to be examined. -/
def matchPercentAt (l : List Char) : Option PercentCap :=
  let ds := l.takeWhile Char.isDigit
  if ds.isEmpty then none
  else
    match l.drop ds.length with
    | '%' :: _ => some (ds, [])
    | '.' :: r2 =>
      let fs := r2.takeWhile Char.isDigit
      if fs.isEmpty then none
      else
        match r2.drop fs.length with
        | '%' :: _ => some (ds, fs)
        | _ => none
    | _ => none

/-- Leftmost match of `(\d+(?:\.\d+)?)%` (JS `chunk.match(...)`): try every
start position left to right. -/
def findFirstPercent : List Char → Option PercentCap
  | [] => none
  | c :: rest =>
    match matchPercentAt (c :: rest) with
    | some cap => some cap
    | none => findFirstPercent rest

/-- Numeric value of a digit run. -/
def digitsVal (l : List Char) : Nat :=
  l.foldl (fun n c => 10 * n + (c.toNat - '0'.toNat)) 0

/-- Model of `parseFloat` on the capture `\d+(\.\d+)?` — exact decimal value. -/
def capValue (cap : PercentCap) : Rat :=
  (digitsVal cap.1 : Rat) + (digitsVal cap.2 : Rat) / ((10 : Rat) ^ cap.2.length)

/-- The literal part of `/\[download\] Destination: (.+)/`, as a string. -/
def destStr : String := "[download] Destination: "

/-- The literal part of the destination pattern, as characters. -/
def destLit : List Char := destStr.data

/-- JS `.` in the default mode: any character except a line terminator. -/
def notLineTerm (c : Char) : Bool := !(c = '\n' || c = '\r')

/-- Try to match `\[download\] Destination: (.+)` anchored at the head of
`l`; the greedy `(.+)` captures the maximal nonempty run of non-line
characters after the literal. -/
def matchDestAt (l : List Char) : Option (List Char) :=
  if destLit.isPrefixOf l then
    let cap := (l.drop destLit.length).takeWhile notLineTerm
    if cap.isEmpty then none else some cap
  else none

/-- Leftmost match of the destination pattern. -/
def findFirstDest : List Char → Option (List Char)
  | [] => none
  | c :: rest =>
    match matchDestAt (c :: rest) with
    | some cap => some cap
    | none => findFirstDest rest

/-- Node `path.basename` (posix): drop trailing separators, then take the
component after the last separator. -/
def basename (s : String) : String :=
  let r := s.data.reverse.dropWhile (fun c => c = '/')
  String.mk (r.takeWhile (fun c => c ≠ '/')).reverse

/-! ## Process Supervisor: the handler closures of `executeDownload` -/

/-- The `process.stdout.on('data', ...)` handler: append the chunk to the
shared `output` buffer, then run the two extractions over the chunk,
updating the captured `job` object, writing it back into the map after each
hit, and emitting a `progress` event on a percentage hit. Returns the
updated manager, the updated captured job, the updated output buffer and the
emitted events. -/
def handleStdout (m : Manager) (job : DownloadJob) (output chunk : String) :
    Manager × DownloadJob × String × List Event :=
  let output1 := output ++ chunk
  let step1 :=
    match findFirstPercent chunk.data with
    | some cap =>
      let p := capValue cap
      let j := { job with progress := some p }
      ({ m with jobs := mapSet m.jobs j.id j }, j,
        [Event.progress { id := j.id, progress := p, status := "downloading" }])
    | none => (m, job, [])
  let step2 :=
    match findFirstDest chunk.data with
    | some cap =>
      let j := { step1.2.1 with filename := some (basename (String.mk cap)) }
      ({ step1.1 with jobs := mapSet step1.1.jobs j.id j }, j, step1.2.2)
    | none => step1
  (step2.1, step2.2.1, output1, step2.2.2)

/-- The `process.stderr.on('data', ...)` handler: only appends to the shared
`output` buffer. -/
def handleStderr (output chunk : String) : String :=
  output ++ chunk

/-- The error message built on a non-zero exit:
`` `Download failed with exit code: ${code}\n${output}` ``. -/
def failMsg (code : Int) (output : String) : String :=
  "Download failed with exit code: " ++ toString code ++ "\n" ++ output

/-- The `process.on('close', ...)` handler: stamp `endTime`, drop the id from
the active set, then finalize as `completed` (zero code: progress forced to
100, `completed` event) or `failed` (non-zero code: error message embedding
the code and the captured output, `failed` event), and write the record
back. -/
def handleClose (m : Manager) (job : DownloadJob) (output : String)
    (code : Int) (now : Int) : Manager × DownloadJob × List Event :=
  let j0 := { job with endTime := some now }
  let act := setDelete m.activeDownloads j0.id
  if code = 0 then
    let j := { j0 with status := JobStatus.completed, progress := some 100 }
    ({ jobs := mapSet m.jobs j.id j, activeDownloads := act }, j, [Event.completed j])
  else
    let j := { j0 with status := JobStatus.failed, error := some (failMsg code output) }
    ({ jobs := mapSet m.jobs j.id j, activeDownloads := act }, j, [Event.failed j])

/-- The `process.on('error', ...)` handler (launch failure): stamp `endTime`,
mark `failed` with `` `Process error: ${error.message}` ``, drop the id from
the active set, write the record back, emit `failed`. -/
def handleError (m : Manager) (job : DownloadJob) (errMessage : String)
    (now : Int) : Manager × DownloadJob × List Event :=
  let j := { job with endTime := some now, status := JobStatus.failed,
                      error := some ("Process error: " ++ errMessage) }
  ({ jobs := mapSet m.jobs j.id j,
     activeDownloads := setDelete m.activeDownloads j.id }, j, [Event.failed j])

/-- The record `startDownload` constructs: `pending`, no progress, no
filename, no error, `startTime` now, no `endTime`. -/
def mkJob (id url : String) (t : JobType) (outputPath : String) (now : Int) :
    DownloadJob :=
  { id := id, url := url, jobType := t, status := JobStatus.pending,
    startTime := now, outputPath := outputPath }

/-- Model of `startDownload` together with the synchronous part of `executeDownload`:
register the pending record, add the id to the active set, then (inside
`executeDownload`, before `spawn` returns control) set the status to
`downloading` and write the record back. Returns the manager, the job object
captured by the handler closures, and the returned id. The `command` and
`args` parameters are consumed only by `spawn` and are opaque to the
manager. -/
def startDownload (m : Manager) (id url : String) (t : JobType)
    (_command : String) (_args : List String) (outputPath : String)
    (now : Int) : Manager × DownloadJob × String :=
  let job := mkJob id url t outputPath now
  let m1 : Manager := { jobs := mapSet m.jobs id job,
                        activeDownloads := setAdd m.activeDownloads id }
  let job2 := { job with status := JobStatus.downloading }
  let m2 : Manager := { m1 with jobs := mapSet m1.jobs job2.id job2 }
  (m2, job2, id)

/-- Query `getJob(id)`: point lookup. -/
def getJob (m : Manager) (id : String) : Option DownloadJob :=
  mapGet m.jobs id

/-- Query `getAllJobs()`: `Array.from(this.jobs.values())`. -/
def getAllJobs (m : Manager) : List DownloadJob :=
  m.jobs.map Prod.snd

/-- Query `getActiveDownloads()`: map the active ids through the job map and keep
the hits. -/
def getActiveDownloads (m : Manager) : List DownloadJob :=
  (m.activeDownloads.map (fun id => mapGet m.jobs id)).reduceOption

/-- Sweep `clearOldJobs(olderThanHours)`: delete the entries whose status is
`completed` or `failed` and whose `endTime` is set and before
`now - olderThanHours * 60 * 60 * 1000`. -/
def clearOldJobs (m : Manager) (olderThanHours : Int) (now : Int) : Manager :=
  let cutoffTime := now - olderThanHours * 60 * 60 * 1000
  { m with jobs := m.jobs.filter (fun p =>
      !(decide (p.2.status = JobStatus.completed ∨ p.2.status = JobStatus.failed) &&
        (match p.2.endTime with
         | some t => decide (t < cutoffTime)
         | none => false))) }

/-! ## `checkDownloads` (the `summarize` report)

The promise resolves synchronously from the in-memory store, so it is
modelled as a pure function of the store and the current time. -/

/-- Duration text `` `${Math.floor(duration / 1000)}s` `` (floor division, as `Math.floor`
of the real quotient). -/
def durStr (duration : Int) : String :=
  toString (duration.fdiv 1000) ++ "s"

/-- Model of `Number.prototype.toFixed(1)`: emit the sign, then round the magnitude
to the nearest tenth, half toward the larger value. -/
def toFixed1 (x : Rat) : String :=
  let sign := if x < 0 then "-" else ""
  let y := if x < 0 then -x else x
  let n := Int.floor (y * 10 + 1 / 2)
  sign ++ toString (n / 10) ++ "." ++ toString (n % 10)

/-- Line `` cond ? marker + s + '\n' : '' `` for an optional string field, with JS
truthiness (the empty string is falsy). -/
def optLine (marker : String) (o : Option String) : String :=
  match o with
  | some s => if s = "" then "" else marker ++ s ++ "\n"
  | none => ""

/-- One active job's lines. `job.progress ? toFixed(1)+'%' : 'Starting...'`
(0 is falsy). -/
def renderActive (now : Int) (job : DownloadJob) : String :=
  let progress :=
    match job.progress with
    | some v => if v = 0 then "Starting..." else toFixed1 v ++ "%"
    | none => "Starting..."
  let duration := now - job.startTime
  "  • " ++ job.id ++ " - " ++ job.jobType.str ++ " - " ++ progress ++
    " (" ++ durStr duration ++ ")\n" ++
  optLine "    File: " job.filename ++
  "    URL: " ++ job.url ++ "\n\n"

/-- One completed job's lines (duration 0 when `endTime` is missing). -/
def renderCompleted (job : DownloadJob) : String :=
  let duration :=
    match job.endTime with
    | some e => e - job.startTime
    | none => 0
  "  • " ++ job.id ++ " - " ++ job.jobType.str ++ " - Completed (" ++
    durStr duration ++ ")\n" ++
  optLine "    File: " job.filename ++
  "    Path: " ++ job.outputPath ++ "\n\n"

/-- One failed job's lines, including the stored error detail when set. -/
def renderFailed (job : DownloadJob) : String :=
  "  • " ++ job.id ++ " - " ++ job.jobType.str ++ " - Failed\n" ++
  "    URL: " ++ job.url ++ "\n" ++
  optLine "    Error: " job.error ++
  "\n"

/-- JS `String.prototype.trim`: strip whitespace from both ends (modelled on
the characters that occur in the report: spaces, tabs, CR, LF). -/
def jsTrim (s : String) : String :=
  String.mk (((s.data.dropWhile Char.isWhitespace).reverse.dropWhile
    Char.isWhitespace).reverse)

/-- Report `checkDownloads()`: the no-jobs message on an empty store, else the
three buckets (active = downloading or pending, completed, failed), each
section rendered only when nonempty, and the result trimmed. -/
def checkDownloads (m : Manager) (now : Int) : String :=
  let allJobs := getAllJobs m
  if allJobs.isEmpty then "No downloads found."
  else
    let activeJobs := allJobs.filter (fun j =>
      decide (j.status = JobStatus.downloading ∨ j.status = JobStatus.pending))
    let completedJobs := allJobs.filter (fun j => decide (j.status = JobStatus.completed))
    let failedJobs := allJobs.filter (fun j => decide (j.status = JobStatus.failed))
    let result := "Download Status Summary:\n\n"
    let result :=
      if activeJobs.length > 0 then
        result ++ "🔄 Active Downloads (" ++ toString activeJobs.length ++ "):\n" ++
          String.join (activeJobs.map (renderActive now))
      else result
    let result :=
      if completedJobs.length > 0 then
        result ++ "✅ Completed Downloads (" ++ toString completedJobs.length ++ "):\n" ++
          String.join (completedJobs.map renderCompleted)
      else result
    let result :=
      if failedJobs.length > 0 then
        result ++ "❌ Failed Downloads (" ++ toString failedJobs.length ++ "):\n" ++
          String.join (failedJobs.map renderFailed)
      else result
    jsTrim result

/-! ## System model: a manager plus the live supervision closures

Each call to `executeDownload` installs handler closures sharing one
captured `job` object and one `output` buffer. A `Supervisor` is that
closure state; events of distinct supervisions interleave arbitrarily, and
within one supervision the stream `data` events precede the single terminal
`close`/`error` event, after which no further events fire (the supervisor is
retired). -/

/-- The closure state of one `executeDownload` call. -/
structure Supervisor where
  job : DownloadJob
  output : String
deriving DecidableEq, Repr

/-- A manager together with its live supervisions. -/
structure Sys where
  mgr : Manager
  sups : List Supervisor
deriving DecidableEq, Repr

/-- The initial system: a fresh manager, no live process. -/
def Sys.init : Sys := { mgr := Manager.empty, sups := [] }

/-- Step `startDownload` at the system level: the new supervision captures the
`downloading` job object and an empty output buffer. -/
def supStart (s : Sys) (id url : String) (t : JobType) (command : String)
    (args : List String) (outputPath : String) (now : Int) : Sys :=
  let r := startDownload s.mgr id url t command args outputPath now
  { mgr := r.1, sups := { job := r.2.1, output := "" } :: s.sups }

/-- Deliver a stdout chunk to one supervision. -/
def supStdout (m : Manager) (sup : Supervisor) (chunk : String) :
    Manager × Supervisor × List Event :=
  let r := handleStdout m sup.job sup.output chunk
  (r.1, { job := r.2.1, output := r.2.2.1 }, r.2.2.2)

/-- Deliver a stderr chunk to one supervision. -/
def supStderr (sup : Supervisor) (chunk : String) : Supervisor :=
  { sup with output := handleStderr sup.output chunk }

/-- Deliver the `close` event to one supervision. -/
def supClose (m : Manager) (sup : Supervisor) (code now : Int) :
    Manager × List Event :=
  let r := handleClose m sup.job sup.output code now
  (r.1, r.2.2)

/-- Deliver the `error` (launch failure) event to one supervision. -/
def supError (m : Manager) (sup : Supervisor) (errMessage : String)
    (now : Int) : Manager × List Event :=
  let r := handleError m sup.job errMessage now
  (r.1, r.2.2)

/-- The system states reachable through the manager's operations. The
`close`/`procError` steps retire the supervision, so no stream event of a
finished process can fire after its terminal callback. Queries are pure and
need no step. -/
inductive Reachable : Sys → Prop where
  | init : Reachable Sys.init
  | start {s : Sys} (id url : String) (t : JobType) (command : String)
      (args : List String) (outputPath : String) (now : Int) :
      Reachable s → Reachable (supStart s id url t command args outputPath now)
  | stdoutData {m : Manager} {pre post : List Supervisor} {sup : Supervisor}
      (chunk : String) :
      Reachable { mgr := m, sups := pre ++ sup :: post } →
      Reachable { mgr := (supStdout m sup chunk).1,
                  sups := pre ++ (supStdout m sup chunk).2.1 :: post }
  | stderrData {m : Manager} {pre post : List Supervisor} {sup : Supervisor}
      (chunk : String) :
      Reachable { mgr := m, sups := pre ++ sup :: post } →
      Reachable { mgr := m, sups := pre ++ supStderr sup chunk :: post }
  | close {m : Manager} {pre post : List Supervisor} {sup : Supervisor}
      (code now : Int) :
      Reachable { mgr := m, sups := pre ++ sup :: post } →
      Reachable { mgr := (supClose m sup code now).1, sups := pre ++ post }
  | procError {m : Manager} {pre post : List Supervisor} {sup : Supervisor}
      (errMessage : String) (now : Int) :
      Reachable { mgr := m, sups := pre ++ sup :: post } →
      Reachable { mgr := (supError m sup errMessage now).1, sups := pre ++ post }
  | clear {s : Sys} (olderThanHours now : Int) :
      Reachable s →
      Reachable { mgr := clearOldJobs s.mgr olderThanHours now, sups := s.sups }

/-- Per-record invariant: `endTime` is set iff the status is terminal. -/
def JobInv (j : DownloadJob) : Prop :=
  j.endTime.isSome ↔ (j.status = JobStatus.completed ∨ j.status = JobStatus.failed)

/-- Store invariant: every record satisfies `JobInv`, and every id in the
active set maps to a record whose status is `pending` or `downloading`. -/
def ManagerInv (m : Manager) : Prop :=
  (∀ p ∈ m.jobs, JobInv p.2) ∧
  (∀ id ∈ m.activeDownloads, ∃ j, mapGet m.jobs id = some j ∧
    (j.status = JobStatus.pending ∨ j.status = JobStatus.downloading))

/-- System invariant: the store invariant, plus: every live supervision's
captured job object is `downloading` with no `endTime`. -/
def SysInv (s : Sys) : Prop :=
  ManagerInv s.mgr ∧
  ∀ sup ∈ s.sups, sup.job.status = JobStatus.downloading ∧ sup.job.endTime = none

/-! ## Concrete instances used by the verification -/

/-- A running job used as a concrete test input. -/
def wJob : DownloadJob :=
  { id := "w1", url := "u", jobType := JobType.video,
    status := JobStatus.downloading, startTime := 2, outputPath := "/o" }

/-- A pre-existing record for the id-collision scenario. -/
def wOld : DownloadJob :=
  { id := "dup", url := "uOld", jobType := JobType.video,
    status := JobStatus.downloading, startTime := 1, outputPath := "/old" }

/-- A store already holding `wOld` under id `dup`. -/
def wMgr : Manager :=
  { jobs := [("dup", wOld)], activeDownloads := ["dup"] }

/-- An old completed record (for the pruning scenario). -/
def wDone : DownloadJob :=
  { id := "old", url := "u", jobType := JobType.audio,
    status := JobStatus.completed, progress := some 100, startTime := 0,
    endTime := some 1000, outputPath := "/d" }

/-- A running record (for the pruning scenario). -/
def wRun : DownloadJob :=
  { id := "run", url := "u", jobType := JobType.video,
    status := JobStatus.downloading, startTime := 0, outputPath := "/r" }

/-- A store with one old terminal record and one running record. -/
def wMgrPrune : Manager :=
  { jobs := [("old", wDone), ("run", wRun)], activeDownloads := ["run"] }

/-- Example store for the report: one active job... -/
def exJobA : DownloadJob :=
  { id := "dlA", url := "u1", jobType := JobType.video,
    status := JobStatus.downloading, progress := none,
    filename := some "video.mp4", startTime := 0, outputPath := "/out/a" }

/-- One completed job for the report store. -/
def exJobB : DownloadJob :=
  { id := "dlB", url := "u2", jobType := JobType.audio,
    status := JobStatus.completed, progress := none, endTime := some 3000,
    startTime := 0, outputPath := "/out/b" }

/-- One failed job with stored error detail for the report store. -/
def exJobC : DownloadJob :=
  { id := "dlC", url := "u3", jobType := JobType.video,
    status := JobStatus.failed, error := some "boom", endTime := some 4000,
    startTime := 0, outputPath := "/out/c" }

/-- The mixed store: one active, one completed, one failed job. -/
def exManager : Manager :=
  { jobs := [("dlA", exJobA), ("dlB", exJobB), ("dlC", exJobC)],
    activeDownloads := ["dlA"] }

/-- The expected active section of the report on `exManager` at time 5000. -/
def exActiveSection : String :=
  "🔄 Active Downloads (1):\n  • dlA - video - Starting... (5s)\n    File: video.mp4\n    URL: u1\n\n"

/-- The expected completed section. -/
def exCompletedSection : String :=
  "✅ Completed Downloads (1):\n  • dlB - audio - Completed (3s)\n    Path: /out/b\n\n"

/-- The expected failed section (trailing whitespace trimmed). -/
def exFailedSection : String :=
  "❌ Failed Downloads (1):\n  • dlC - video - Failed\n    URL: u3\n    Error: boom"

/-! ## Map/set helper lemmas -/

theorem mem_mapSet {l : List (String × DownloadJob)} {k : String} {v : DownloadJob}
    {p : String × DownloadJob} (h : p ∈ mapSet l k v) : p = (k, v) ∨ p ∈ l := by
  induction l with
  | nil => simpa [mapSet] using h
  | cons hd tl ih =>
    obtain ⟨k0, v0⟩ := hd
    by_cases hk : k0 = k
    · simp only [mapSet, if_pos hk, List.mem_cons] at h
      rcases h with h | h
      · exact Or.inl h
      · exact Or.inr (List.mem_cons_of_mem _ h)
    · simp only [mapSet, if_neg hk, List.mem_cons] at h
      rcases h with h | h
      · exact Or.inr (h ▸ List.mem_cons_self _ _)
      · rcases ih h with h1 | h1
        · exact Or.inl h1
        · exact Or.inr (List.mem_cons_of_mem _ h1)

theorem mapGet_mapSet_self (l : List (String × DownloadJob)) (k : String)
    (v : DownloadJob) : mapGet (mapSet l k v) k = some v := by
  induction l with
  | nil => simp [mapSet, mapGet]
  | cons hd tl ih =>
    obtain ⟨k0, v0⟩ := hd
    by_cases hk : k0 = k
    · simp [mapSet, hk, mapGet]
    · simp [mapSet, hk, mapGet, ih]

theorem mapGet_mapSet_ne (l : List (String × DownloadJob)) {k k' : String}
    (v : DownloadJob) (h : k' ≠ k) :
    mapGet (mapSet l k v) k' = mapGet l k' := by
  induction l with
  | nil => simp [mapSet, mapGet, Ne.symm h]
  | cons hd tl ih =>
    obtain ⟨k0, v0⟩ := hd
    by_cases hk : k0 = k
    · subst hk
      simp [mapSet, mapGet, Ne.symm h]
    · simp [mapSet, hk, mapGet, ih]

theorem mem_setAdd {l : List String} {k x : String} (h : x ∈ setAdd l k) :
    x = k ∨ x ∈ l := by
  by_cases hk : k ∈ l <;> simp [setAdd, hk] at h <;> tauto

theorem mem_setAdd_self (l : List String) (k : String) : k ∈ setAdd l k := by
  by_cases hk : k ∈ l <;> simp [setAdd, hk]

theorem mem_setDelete {l : List String} {k x : String} :
    x ∈ setDelete l k ↔ x ∈ l ∧ x ≠ k := by
  simp [setDelete, List.mem_filter]

theorem mapGet_filter_of_keep {P : String × DownloadJob → Bool}
    {l : List (String × DownloadJob)} {k : String} {v : DownloadJob}
    (h : mapGet l k = some v) (hP : P (k, v) = true) :
    mapGet (l.filter P) k = some v := by
  induction l with
  | nil => simp [mapGet] at h
  | cons hd tl ih =>
    obtain ⟨k0, v0⟩ := hd
    by_cases hk : k0 = k
    · subst hk
      have h' : v0 = v := by simpa [mapGet] using h
      subst h'
      simp [List.filter_cons, hP, mapGet]
    · simp only [mapGet, if_neg hk] at h
      rcases hPh : P (k0, v0) with _ | _
      · simp [List.filter_cons, hPh, ih h]
      · simp [List.filter_cons, hPh, mapGet, hk, ih h]

theorem mem_getActiveDownloads {m : Manager} {j : DownloadJob}
    (h : j ∈ getActiveDownloads m) :
    ∃ id ∈ m.activeDownloads, mapGet m.jobs id = some j := by
  unfold getActiveDownloads at h
  rw [List.reduceOption_mem_iff] at h
  obtain ⟨id, hid, heq⟩ := List.mem_map.1 h
  exact ⟨id, hid, heq⟩

/-! ## Preservation lemmas for the store invariant -/

theorem managerInv_mapSet {m : Manager} (hm : ManagerInv m) {j : DownloadJob}
    (hJ : JobInv j)
    (hnt : j.status = JobStatus.pending ∨ j.status = JobStatus.downloading) :
    ManagerInv { m with jobs := mapSet m.jobs j.id j } := by
  obtain ⟨h1, h2⟩ := hm
  constructor
  · intro p hp
    rcases mem_mapSet hp with rfl | hp
    · exact hJ
    · exact h1 p hp
  · intro i hi
    by_cases hii : i = j.id
    · subst hii
      exact ⟨j, mapGet_mapSet_self _ _ _, hnt⟩
    · obtain ⟨j', hj', hs'⟩ := h2 i hi
      exact ⟨j', (mapGet_mapSet_ne _ _ hii).trans hj', hs'⟩

theorem managerInv_terminalWrite {m : Manager} (hm : ManagerInv m)
    {j : DownloadJob} (hJ : JobInv j) :
    ManagerInv { jobs := mapSet m.jobs j.id j,
                 activeDownloads := setDelete m.activeDownloads j.id } := by
  obtain ⟨h1, h2⟩ := hm
  constructor
  · intro p hp
    rcases mem_mapSet hp with rfl | hp
    · exact hJ
    · exact h1 p hp
  · intro i hi
    obtain ⟨hil, hne⟩ := mem_setDelete.1 hi
    obtain ⟨j', hj', hs'⟩ := h2 i hil
    exact ⟨j', (mapGet_mapSet_ne _ _ hne).trans hj', hs'⟩

theorem managerInv_setAdd {m : Manager} (hm : ManagerInv m) {id : String}
    {j : DownloadJob} (hj : mapGet m.jobs id = some j)
    (hnt : j.status = JobStatus.pending ∨ j.status = JobStatus.downloading) :
    ManagerInv { m with activeDownloads := setAdd m.activeDownloads id } := by
  obtain ⟨h1, h2⟩ := hm
  refine ⟨h1, ?_⟩
  intro i hi
  rcases mem_setAdd hi with rfl | hi
  · exact ⟨j, hj, hnt⟩
  · exact h2 i hi

theorem managerInv_clear {m : Manager} (hm : ManagerInv m)
    (olderThanHours now : Int) :
    ManagerInv (clearOldJobs m olderThanHours now) := by
  obtain ⟨h1, h2⟩ := hm
  constructor
  · intro p hp
    exact h1 p (List.mem_of_mem_filter hp)
  · intro i hi
    obtain ⟨j, hj, hs⟩ := h2 i hi
    refine ⟨j, mapGet_filter_of_keep hj ?_, hs⟩
    rcases hs with hs | hs <;> simp [hs]

/-- The stdout handler never changes the captured job's id, status or
`endTime`. -/
theorem handleStdout_job_fields (m : Manager) (job : DownloadJob)
    (output chunk : String) :
    (handleStdout m job output chunk).2.1.status = job.status ∧
    (handleStdout m job output chunk).2.1.endTime = job.endTime ∧
    (handleStdout m job output chunk).2.1.id = job.id := by
  unfold handleStdout
  rcases findFirstPercent chunk.data with _ | cap <;>
    rcases findFirstDest chunk.data with _ | capd <;> simp

/-- The stdout handler never changes the active set. -/
theorem handleStdout_active (m : Manager) (job : DownloadJob)
    (output chunk : String) :
    (handleStdout m job output chunk).1.activeDownloads = m.activeDownloads := by
  unfold handleStdout
  rcases findFirstPercent chunk.data with _ | cap <;>
    rcases findFirstDest chunk.data with _ | capd <;> simp

/-- The stdout handler preserves the store invariant when its captured job is
running and unfinished. -/
theorem managerInv_handleStdout {m : Manager} (hm : ManagerInv m)
    {job : DownloadJob} (hst : job.status = JobStatus.downloading)
    (het : job.endTime = none) (output chunk : String) :
    ManagerInv (handleStdout m job output chunk).1 := by
  unfold handleStdout
  rcases findFirstPercent chunk.data with _ | cap <;>
    rcases findFirstDest chunk.data with _ | capd <;> simp only
  · exact hm
  · exact managerInv_mapSet
      (j := { job with filename := some (basename (String.mk capd)) }) hm
      (by simp [JobInv, het, hst]) (Or.inr (by simp [hst]))
  · exact managerInv_mapSet
      (j := { job with progress := some (capValue cap) }) hm
      (by simp [JobInv, het, hst]) (Or.inr (by simp [hst]))
  · have h1 := managerInv_mapSet
      (j := { job with progress := some (capValue cap) }) hm
      (by simp [JobInv, het, hst]) (Or.inr (by simp [hst]))
    exact managerInv_mapSet
      (j := { job with progress := some (capValue cap),
                       filename := some (basename (String.mk capd)) }) h1
      (by simp [JobInv, het, hst]) (Or.inr (by simp [hst]))

/-- The manager after the close handler, by cases on the exit code. -/
theorem managerInv_handleClose {m : Manager} (hm : ManagerInv m)
    (job : DownloadJob) (output : String) (code now : Int) :
    ManagerInv (handleClose m job output code now).1 := by
  unfold handleClose
  by_cases hc : code = 0
  · rw [if_pos hc]
    exact managerInv_terminalWrite
      (j := { job with endTime := some now, status := JobStatus.completed,
                       progress := some 100 }) hm (by simp [JobInv])
  · rw [if_neg hc]
    exact managerInv_terminalWrite
      (j := { job with endTime := some now, status := JobStatus.failed,
                       error := some (failMsg code output) }) hm (by simp [JobInv])

/-- The manager after the launch-error handler. -/
theorem managerInv_handleError {m : Manager} (hm : ManagerInv m)
    (job : DownloadJob) (errMessage : String) (now : Int) :
    ManagerInv (handleError m job errMessage now).1 := by
  unfold handleError
  exact managerInv_terminalWrite
    (j := { job with endTime := some now, status := JobStatus.failed,
                     error := some ("Process error: " ++ errMessage) }) hm
    (by simp [JobInv])

/-! ## The reachability invariant -/

/-- Every reachable system state satisfies the invariant. -/
theorem sysInv_of_reachable {s : Sys} (h : Reachable s) : SysInv s := by
  induction h with
  | init =>
    constructor
    · exact ⟨by simp [Sys.init, Manager.empty], by simp [Sys.init, Manager.empty]⟩
    · intro sup hsup
      simp [Sys.init] at hsup
  | start id url t command args outputPath now hr0 ih =>
    rename_i s0
    obtain ⟨hm, hsups⟩ := ih
    constructor
    · have A := managerInv_mapSet (j := mkJob id url t outputPath now) hm
        (by simp [JobInv, mkJob]) (Or.inl rfl)
      have B := managerInv_mapSet
        (j := { mkJob id url t outputPath now with status := JobStatus.downloading })
        A (by simp [JobInv, mkJob]) (Or.inr rfl)
      have hget : mapGet
          (mapSet (mapSet s0.mgr.jobs id (mkJob id url t outputPath now)) id
            { mkJob id url t outputPath now with status := JobStatus.downloading }) id =
          some { mkJob id url t outputPath now with status := JobStatus.downloading } :=
        mapGet_mapSet_self _ _ _
      have C := managerInv_setAdd B hget (Or.inr rfl)
      exact C
    · intro sup hsup
      rcases List.mem_cons.1 hsup with rfl | hsup
      · exact ⟨rfl, rfl⟩
      · exact hsups sup hsup
  | stdoutData chunk hr ih =>
    rename_i m pre post sup
    obtain ⟨hm, hsups⟩ := ih
    obtain ⟨hst, het⟩ := hsups sup (by simp)
    constructor
    · exact managerInv_handleStdout hm hst het sup.output chunk
    · intro sup' hsup'
      rcases List.mem_append.1 hsup' with h | h
      · exact hsups sup' (List.mem_append_left _ h)
      · rcases List.mem_cons.1 h with rfl | h
        · obtain ⟨a, b, _⟩ := handleStdout_job_fields m sup.job sup.output chunk
          exact ⟨a.trans hst, b.trans het⟩
        · exact hsups sup' (by simp [h])
  | stderrData chunk hr ih =>
    rename_i m pre post sup
    obtain ⟨hm, hsups⟩ := ih
    refine ⟨hm, ?_⟩
    intro sup' hsup'
    rcases List.mem_append.1 hsup' with h | h
    · exact hsups sup' (List.mem_append_left _ h)
    · rcases List.mem_cons.1 h with rfl | h
      · exact hsups sup (by simp)
      · exact hsups sup' (by simp [h])
  | close code now hr ih =>
    rename_i m pre post sup
    obtain ⟨hm, hsups⟩ := ih
    constructor
    · exact managerInv_handleClose hm _ _ code now
    · intro sup' hsup'
      rcases List.mem_append.1 hsup' with h | h
      · exact hsups sup' (List.mem_append_left _ h)
      · exact hsups sup' (by simp [h])
  | procError errMessage now hr ih =>
    rename_i m pre post sup
    obtain ⟨hm, hsups⟩ := ih
    constructor
    · exact managerInv_handleError hm _ _ now
    · intro sup' hsup'
      rcases List.mem_append.1 hsup' with h | h
      · exact hsups sup' (List.mem_append_left _ h)
      · exact hsups sup' (by simp [h])
  | clear olderThanHours now _ ih =>
    obtain ⟨hm, hsups⟩ := ih
    exact ⟨managerInv_clear hm olderThanHours now, hsups⟩

/-! ## Progress-interpreter lemmas -/

theorem matchPercentAt_nil : matchPercentAt [] = none := rfl

/-- A list is a `isPrefixOf`-witnessed front of itself plus anything. -/
theorem isPrefixOf_append_self (l r : List Char) : l.isPrefixOf (l ++ r) = true := by
  simp

/-- A successful scan returns the match at the least matching start
position. -/
theorem findFirstPercent_some_first {l : List Char} {cap : PercentCap}
    (h : findFirstPercent l = some cap) :
    ∃ i, matchPercentAt (l.drop i) = some cap ∧
      ∀ k < i, matchPercentAt (l.drop k) = none := by
  induction l with
  | nil => simp [findFirstPercent] at h
  | cons c rest ih =>
    rw [findFirstPercent] at h
    rcases hm : matchPercentAt (c :: rest) with _ | cap0
    · rw [hm] at h
      obtain ⟨i, hi, hmin⟩ := ih h
      refine ⟨i + 1, by simpa using hi, ?_⟩
      intro k hk
      cases k with
      | zero => simpa using hm
      | succ k0 => simpa using hmin k0 (by omega)
    · rw [hm] at h
      simp only [Option.some.injEq] at h
      subst h
      exact ⟨0, by simpa using hm, by intro k hk; omega⟩

/-- The scan fails exactly when no start position matches. -/
theorem findFirstPercent_none_iff {l : List Char} :
    findFirstPercent l = none ↔ ∀ i, matchPercentAt (l.drop i) = none := by
  induction l with
  | nil =>
    simp only [findFirstPercent, List.drop_nil, true_iff]
    intro i
    exact matchPercentAt_nil
  | cons c rest ih =>
    rw [findFirstPercent]
    rcases hm : matchPercentAt (c :: rest) with _ | cap0
    · rw [ih]
      constructor
      · intro hall i
        cases i with
        | zero => simpa using hm
        | succ k => simpa using hall k
      · intro hall k
        simpa using hall (k + 1)
    · constructor
      · intro h
        exact absurd h (by simp)
      · intro hall
        have := hall 0
        simp only [List.drop_zero] at this
        rw [hm] at this
        exact absurd this (by simp)

/-- An anchored destination match at the head wins the scan. -/
theorem findFirstDest_of_matchDestAt {l : List Char} {cap : List Char}
    (hne : l ≠ []) (h : matchDestAt l = some cap) :
    findFirstDest l = some cap := by
  cases l with
  | nil => exact absurd rfl hne
  | cons c rest =>
    rw [findFirstDest, h]

/-! ## Close/error handler bookkeeping lemmas -/

/-- The close callback removes the job from the active set in the same
step, whatever the exit code. -/
theorem supClose_active (m : Manager) (sup : Supervisor) (code now : Int) :
    (supClose m sup code now).1.activeDownloads =
      setDelete m.activeDownloads sup.job.id := by
  unfold supClose handleClose
  by_cases hc : code = 0 <;> simp [hc]

/-- The launch-error callback removes the job from the active set in the
same step. -/
theorem supError_active (m : Manager) (sup : Supervisor)
    (errMessage : String) (now : Int) :
    (supError m sup errMessage now).1.activeDownloads =
      setDelete m.activeDownloads sup.job.id := rfl

theorem not_mem_setDelete_self (l : List String) (k : String) :
    k ∉ setDelete l k :=
  fun h => (mem_setDelete.1 h).2 rfl

/-! ## Claims -/

/-- C1. For every job whose external process exits with status code zero
while the job is running, the close callback transitions the record to
`completed`, forces `progressPercent` to 100, sets `finishedAt` (to a value
≥ `startedAt`, by time monotonicity `startTime ≤ now`), writes the record
back into the store, and emits a `completed` notification carrying the full
record. -/
theorem claim_C1_zero_exit_completes (m : Manager) (job : DownloadJob)
    (output : String) (now : Int)
    (hrun : job.status = JobStatus.downloading)
    (hts : job.startTime ≤ now) :
    (handleClose m job output 0 now).2.1.status = JobStatus.completed ∧
    (handleClose m job output 0 now).2.1.progress = some 100 ∧
    (∃ t, (handleClose m job output 0 now).2.1.endTime = some t ∧
      (handleClose m job output 0 now).2.1.startTime ≤ t) ∧
    mapGet (handleClose m job output 0 now).1.jobs job.id =
      some (handleClose m job output 0 now).2.1 ∧
    (handleClose m job output 0 now).2.2 =
      [Event.completed (handleClose m job output 0 now).2.1] := by
  refine ⟨?_, ?_, ⟨now, ?_, ?_⟩, ?_, ?_⟩ <;>
    simp [handleClose, mapGet_mapSet_self, hts]

/-- Witness for C1: a concrete running job closed with code 0 at time 7. -/
theorem claim_C1_zero_exit_completes_witness :
    (handleClose Manager.empty wJob "" 0 7).2.1.status = JobStatus.completed ∧
    (handleClose Manager.empty wJob "" 0 7).2.1.progress = some 100 ∧
    (∃ t, (handleClose Manager.empty wJob "" 0 7).2.1.endTime = some t ∧
      (handleClose Manager.empty wJob "" 0 7).2.1.startTime ≤ t) ∧
    mapGet (handleClose Manager.empty wJob "" 0 7).1.jobs wJob.id =
      some (handleClose Manager.empty wJob "" 0 7).2.1 ∧
    (handleClose Manager.empty wJob "" 0 7).2.2 =
      [Event.completed (handleClose Manager.empty wJob "" 0 7).2.1] :=
  claim_C1_zero_exit_completes Manager.empty wJob "" 7 rfl (by decide)

/-- C2. For every job whose external process exits with a non-zero
status code, the close callback transitions the record to `failed`,
`errorDetail` is the non-empty message embedding the exit code and the
captured stdout+stderr output, `finishedAt` is set, the record is written
back, and a `failed` notification carrying the full record is emitted. The
particular exit-code-1 / "no such host" scenario is the witness below. -/
theorem claim_C2_nonzero_exit_fails (m : Manager) (job : DownloadJob)
    (output : String) (code now : Int)
    (hcode : code ≠ 0) (hrun : job.status = JobStatus.downloading) :
    (handleClose m job output code now).2.1.status = JobStatus.failed ∧
    (handleClose m job output code now).2.1.error = some (failMsg code output) ∧
    failMsg code output ≠ "" ∧
    (toString code).data <:+: (failMsg code output).data ∧
    output.data <:+: (failMsg code output).data ∧
    (handleClose m job output code now).2.1.endTime = some now ∧
    mapGet (handleClose m job output code now).1.jobs job.id =
      some (handleClose m job output code now).2.1 ∧
    (handleClose m job output code now).2.2 =
      [Event.failed (handleClose m job output code now).2.1] := by
  refine ⟨?_, ?_, ?_, ?_, ?_, ?_, ?_, ?_⟩
  · simp [handleClose, hcode]
  · simp [handleClose, hcode]
  · intro h
    have h2 : (failMsg code output).data = [] := by rw [h]
    rw [failMsg, String.data_append, String.data_append, String.data_append] at h2
    obtain ⟨h3, -⟩ := List.append_eq_nil.mp h2
    obtain ⟨h4, -⟩ := List.append_eq_nil.mp h3
    obtain ⟨h5, -⟩ := List.append_eq_nil.mp h4
    exact absurd h5 (by decide)
  · exact ⟨"Download failed with exit code: ".data, "\n".data ++ output.data,
      by simp [failMsg, String.data_append]⟩
  · exact ⟨("Download failed with exit code: " ++ toString code ++ "\n").data, [],
      by simp [failMsg, String.data_append]⟩
  · simp [handleClose, hcode]
  · simp [handleClose, hcode, mapGet_mapSet_self]
  · simp [handleClose, hcode]

/-- Witness for C2: exit code 1 after stderr delivered "no such host"; the
record fails and the error detail contains both the exit code and the
stderr text. -/
theorem claim_C2_nonzero_exit_fails_witness :
    (handleClose Manager.empty wJob (handleStderr "" "no such host") 1 9).2.1.status =
      JobStatus.failed ∧
    "no such host".data <:+: (failMsg 1 (handleStderr "" "no such host")).data ∧
    "1".data <:+: (failMsg 1 (handleStderr "" "no such host")).data ∧
    (handleClose Manager.empty wJob (handleStderr "" "no such host") 1 9).2.1.endTime =
      some 9 := by
  have h := claim_C2_nonzero_exit_fails Manager.empty wJob
    (handleStderr "" "no such host") 1 9 (by decide) rfl
  exact ⟨h.1, h.2.2.2.2.1, h.2.2.2.1, h.2.2.2.2.2.1⟩

/-- C3. In every reachable state, a stored record's `finishedAt`
(`endTime`) is set iff its state is terminal (`completed` or `failed`); and
`progressPercent` is only ever assigned while the state is running: the only
assignment outside the forced 100 on successful completion is the stdout
callback, every live callback's captured job is in the `downloading` state,
and the stdout callback does not change the state. -/
theorem claim_C3_finishedAt_iff_terminal {s : Sys} (h : Reachable s) :
    (∀ p ∈ s.mgr.jobs,
      (p.2.endTime.isSome ↔
        (p.2.status = JobStatus.completed ∨ p.2.status = JobStatus.failed))) ∧
    (∀ sup ∈ s.sups, sup.job.status = JobStatus.downloading) ∧
    (∀ (m : Manager) (sup : Supervisor) (chunk : String),
      (supStdout m sup chunk).2.1.job.status = sup.job.status ∧
      (supStdout m sup chunk).2.1.job.endTime = sup.job.endTime) := by
  obtain ⟨⟨h1, h2⟩, h3⟩ := sysInv_of_reachable h
  refine ⟨fun p hp => h1 p hp, fun sup hsup => (h3 sup hsup).1, ?_⟩
  intro m sup chunk
  obtain ⟨a, b, _⟩ := handleStdout_job_fields m sup.job sup.output chunk
  exact ⟨a, b⟩

/-- Witness for C3: the state after one `startDownload` is reachable and
satisfies the invariant. -/
theorem claim_C3_finishedAt_iff_terminal_witness :
    (∀ p ∈ (supStart Sys.init "w" "u" JobType.video "yt-dlp" [] "/o" 0).mgr.jobs,
      (p.2.endTime.isSome ↔
        (p.2.status = JobStatus.completed ∨ p.2.status = JobStatus.failed))) ∧
    (∀ sup ∈ (supStart Sys.init "w" "u" JobType.video "yt-dlp" [] "/o" 0).sups,
      sup.job.status = JobStatus.downloading) ∧
    (∀ (m : Manager) (sup : Supervisor) (chunk : String),
      (supStdout m sup chunk).2.1.job.status = sup.job.status ∧
      (supStdout m sup chunk).2.1.job.endTime = sup.job.endTime) :=
  claim_C3_finishedAt_iff_terminal
    (Reachable.start "w" "u" JobType.video "yt-dlp" [] "/o" 0 Reachable.init)

/-- C4. `clearOldJobs` keeps exactly the entries that are not
(terminal with `finishedAt` before `now - threshold`); in particular a
`pending` or `downloading` record is never removed, regardless of age, and
the active set is untouched. -/
theorem claim_C4_prune_exactly_old_terminal (m : Manager)
    (olderThanHours now : Int) (id : String) (j : DownloadJob) :
    ((id, j) ∈ (clearOldJobs m olderThanHours now).jobs ↔
      ((id, j) ∈ m.jobs ∧
        ¬((j.status = JobStatus.completed ∨ j.status = JobStatus.failed) ∧
          ∃ t, j.endTime = some t ∧
            t < now - olderThanHours * 60 * 60 * 1000))) ∧
    ((j.status = JobStatus.pending ∨ j.status = JobStatus.downloading) →
      ((id, j) ∈ (clearOldJobs m olderThanHours now).jobs ↔ (id, j) ∈ m.jobs)) ∧
    (clearOldJobs m olderThanHours now).activeDownloads = m.activeDownloads := by
  have hmain : (id, j) ∈ (clearOldJobs m olderThanHours now).jobs ↔
      ((id, j) ∈ m.jobs ∧
        ¬((j.status = JobStatus.completed ∨ j.status = JobStatus.failed) ∧
          ∃ t, j.endTime = some t ∧
            t < now - olderThanHours * 60 * 60 * 1000)) := by
    cases hET : j.endTime <;>
      simp [clearOldJobs, List.mem_filter, hET] <;> tauto
  refine ⟨hmain, ?_, rfl⟩
  intro hs
  rw [hmain]
  rcases hs with hs | hs <;> simp [hs]

/-- Witness for C4: in a store with an old completed job and a running job,
the sweep at a 1-hour threshold removes the completed one and keeps the
running one. -/
theorem claim_C4_prune_exactly_old_terminal_witness :
    ("run", wRun) ∈ (clearOldJobs wMgrPrune 1 4000000).jobs ∧
    ("old", wDone) ∉ (clearOldJobs wMgrPrune 1 4000000).jobs := by
  constructor
  · exact ((claim_C4_prune_exactly_old_terminal wMgrPrune 1 4000000 "run" wRun).2.1
      (Or.inr rfl)).mpr (by decide)
  · intro hmem
    have h := (claim_C4_prune_exactly_old_terminal wMgrPrune 1 4000000 "old" wDone).1.mp hmem
    exact h.2 ⟨Or.inl rfl, 1000, rfl, by decide⟩

/-- C5. In every reachable state, every job in the active view
(`getActiveDownloads`) has state `pending` or `downloading`; and the close
and launch-error callbacks remove the job from the active set within the
same step that performs the terminal transition (the returned state already
lacks the id — no deferred bookkeeping). -/
theorem claim_C5_active_view {s : Sys} (h : Reachable s) :
    (∀ j ∈ getActiveDownloads s.mgr,
      j.status = JobStatus.pending ∨ j.status = JobStatus.downloading) ∧
    (∀ (m : Manager) (sup : Supervisor) (code now : Int),
      (supClose m sup code now).1.activeDownloads =
        setDelete m.activeDownloads sup.job.id ∧
      sup.job.id ∉ (supClose m sup code now).1.activeDownloads) ∧
    (∀ (m : Manager) (sup : Supervisor) (errMessage : String) (now : Int),
      (supError m sup errMessage now).1.activeDownloads =
        setDelete m.activeDownloads sup.job.id ∧
      sup.job.id ∉ (supError m sup errMessage now).1.activeDownloads) := by
  obtain ⟨⟨h1, h2⟩, h3⟩ := sysInv_of_reachable h
  refine ⟨?_, ?_, ?_⟩
  · intro j hj
    obtain ⟨id, hid, hget⟩ := mem_getActiveDownloads hj
    obtain ⟨j', hj', hs'⟩ := h2 id hid
    obtain rfl : j' = j := Option.some.inj (hj'.symm.trans hget)
    exact hs'
  · intro m sup code now
    refine ⟨supClose_active m sup code now, ?_⟩
    rw [supClose_active m sup code now]
    exact not_mem_setDelete_self _ _
  · intro m sup errMessage now
    refine ⟨supError_active m sup errMessage now, ?_⟩
    rw [supError_active m sup errMessage now]
    exact not_mem_setDelete_self _ _

/-- Witness for C5 at the state after one `startDownload`. -/
theorem claim_C5_active_view_witness :
    (∀ j ∈ getActiveDownloads
        (supStart Sys.init "w" "u" JobType.video "yt-dlp" [] "/o" 0).mgr,
      j.status = JobStatus.pending ∨ j.status = JobStatus.downloading) ∧
    (∀ (m : Manager) (sup : Supervisor) (code now : Int),
      (supClose m sup code now).1.activeDownloads =
        setDelete m.activeDownloads sup.job.id ∧
      sup.job.id ∉ (supClose m sup code now).1.activeDownloads) ∧
    (∀ (m : Manager) (sup : Supervisor) (errMessage : String) (now : Int),
      (supError m sup errMessage now).1.activeDownloads =
        setDelete m.activeDownloads sup.job.id ∧
      sup.job.id ∉ (supError m sup errMessage now).1.activeDownloads) :=
  claim_C5_active_view
    (Reachable.start "w" "u" JobType.video "yt-dlp" [] "/o" 0 Reachable.init)

/-- C6. The percentage extraction returns the match at the first
(leftmost) start position where a number, optionally fractional,
imm­ediately followed by `%` matches, and fails exactly when no position
matches; on a hit the stdout callback stores the parsed value as the new
progress and emits exactly one progress notification; on a miss it leaves
the existing progress untouched and emits nothing. The chunk
`"[download]  42.5% of 10.00MiB"` yields the capture `42.5`, i.e. the value
42.5. -/
theorem claim_C6_percent_signal :
    (∀ (l : List Char) (cap : PercentCap), findFirstPercent l = some cap →
      ∃ i, matchPercentAt (l.drop i) = some cap ∧
        ∀ k < i, matchPercentAt (l.drop k) = none) ∧
    (∀ l : List Char,
      findFirstPercent l = none ↔ ∀ i, matchPercentAt (l.drop i) = none) ∧
    (∀ (m : Manager) (job : DownloadJob) (output chunk : String)
      (cap : PercentCap), findFirstPercent chunk.data = some cap →
      (handleStdout m job output chunk).2.1.progress = some (capValue cap) ∧
      (handleStdout m job output chunk).2.2.2 =
        [Event.progress
          { id := job.id, progress := capValue cap, status := "downloading" }]) ∧
    (∀ (m : Manager) (job : DownloadJob) (output chunk : String),
      findFirstPercent chunk.data = none →
      (handleStdout m job output chunk).2.1.progress = job.progress ∧
      (handleStdout m job output chunk).2.2.2 = []) ∧
    (findFirstPercent "[download]  42.5% of 10.00MiB".data =
        some (['4', '2'], ['5']) ∧
      capValue (['4', '2'], ['5']) = 42.5) := by
  refine ⟨fun l cap h => findFirstPercent_some_first h,
    fun l => findFirstPercent_none_iff, ?_, ?_, by decide, ?_⟩
  · intro m job output chunk cap h
    rcases hd : findFirstDest chunk.data with _ | capd <;>
      simp [handleStdout, h, hd]
  · intro m job output chunk h
    rcases hd : findFirstDest chunk.data with _ | capd <;>
      simp [handleStdout, h, hd]
  · have h1 : digitsVal ['4', '2'] = 42 := by decide
    have h2 : digitsVal ['5'] = 5 := by decide
    rw [capValue]
    simp only [h1, h2]
    norm_num

/-- Witness for C6: the concrete chunk drives the stdout callback to a
progress of 42.5 with a single progress event, and a chunk with no
percentage leaves the progress unchanged. -/
theorem claim_C6_percent_signal_witness :
    (handleStdout Manager.empty wJob "" "[download]  42.5% of 10.00MiB").2.1.progress =
      some (capValue (['4', '2'], ['5'])) ∧
    capValue (['4', '2'], ['5']) = 42.5 ∧
    (handleStdout Manager.empty wJob "" "no progress here").2.1.progress =
      wJob.progress := by
  have h := claim_C6_percent_signal
  exact ⟨(h.2.2.1 Manager.empty wJob "" "[download]  42.5% of 10.00MiB"
      (['4', '2'], ['5']) (by decide)).1,
    h.2.2.2.2.2,
    (h.2.2.2.1 Manager.empty wJob "" "no progress here" (by decide)).1⟩

/-- C7. The filename extraction matches the fixed literal destination
marker followed by a path (any nonempty run of non-line characters) and
stores the last path segment of that path as the new filename; the concrete
chunk `"[download] Destination: /tmp/movie.mp4"` yields `movie.mp4`; and a
chunk without the pattern leaves the filename untouched. -/
theorem claim_C7_destination_signal :
    (∀ (m : Manager) (job : DownloadJob) (output : String) (p : String),
      p.data ≠ [] → (∀ c ∈ p.data, notLineTerm c = true) →
      (handleStdout m job output (destStr ++ p)).2.1.filename =
        some (basename p)) ∧
    (∀ (m : Manager) (job : DownloadJob) (output chunk : String),
      findFirstDest chunk.data = none →
      (handleStdout m job output chunk).2.1.filename = job.filename) ∧
    (∀ (m : Manager) (job : DownloadJob) (output : String),
      (handleStdout m job output "[download] Destination: /tmp/movie.mp4").2.1.filename =
        some "movie.mp4") ∧
    basename "/tmp/movie.mp4" = "movie.mp4" := by
  have hlit : destStr.data = destLit := rfl
  refine ⟨?_, ?_, ?_, by decide⟩
  · intro m job output p hne hnl
    have hmatch : matchDestAt (destStr.data ++ p.data) = some p.data := by
      rw [hlit]
      unfold matchDestAt
      rw [if_pos (isPrefixOf_append_self destLit p.data)]
      rw [List.drop_left, List.takeWhile_eq_self_iff.mpr hnl]
      rw [if_neg (by simp [List.isEmpty_iff, hne])]
    have hfind : findFirstDest (destStr.data ++ p.data) = some p.data := by
      refine findFirstDest_of_matchDestAt ?_ hmatch
      intro heq
      obtain ⟨h1, -⟩ := List.append_eq_nil.mp heq
      exact absurd h1 (by decide)
    rcases hp : findFirstPercent (destStr.data ++ p.data) with _ | cap <;>
      simp [handleStdout, hfind, hp]
  · intro m job output chunk h
    rcases hp : findFirstPercent chunk.data with _ | cap <;>
      simp [handleStdout, h, hp]
  · intro m job output
    have hfind : findFirstDest "[download] Destination: /tmp/movie.mp4".data =
        some "/tmp/movie.mp4".data := by decide
    have hp : findFirstPercent "[download] Destination: /tmp/movie.mp4".data =
        none := by decide
    simp [handleStdout, hfind, hp]
    decide

/-- Witness for C7: the destination-marker chunk for `/tmp/movie.mp4` sets
the filename to `movie.mp4` via the general destination rule. -/
theorem claim_C7_destination_signal_witness :
    (handleStdout Manager.empty wJob "" (destStr ++ "/tmp/movie.mp4")).2.1.filename =
      some (basename "/tmp/movie.mp4") ∧
    basename "/tmp/movie.mp4" = "movie.mp4" := by
  have h := claim_C7_destination_signal
  exact ⟨h.1 Manager.empty wJob "" "/tmp/movie.mp4" (by decide) (by decide),
    h.2.2.2⟩

/-- C8. `startDownload` creates the record in the `pending` state,
registers the id in the active set, hands off to the supervisor (which
synchronously moves the record to `downloading` before any output is
observed), and returns the id; a `getJob` immediately afterwards finds the
record in the `pending`-or-`downloading` (running) band — never absent,
never terminal, with no `endTime`. -/
theorem claim_C8_startDownload_registers (m : Manager) (id url : String)
    (t : JobType) (command : String) (args : List String)
    (outputPath : String) (now : Int) :
    (startDownload m id url t command args outputPath now).2.2 = id ∧
    (mkJob id url t outputPath now).status = JobStatus.pending ∧
    (startDownload m id url t command args outputPath now).2.1 =
      { mkJob id url t outputPath now with status := JobStatus.downloading } ∧
    getJob (startDownload m id url t command args outputPath now).1 id =
      some (startDownload m id url t command args outputPath now).2.1 ∧
    ((startDownload m id url t command args outputPath now).2.1.status =
        JobStatus.pending ∨
      (startDownload m id url t command args outputPath now).2.1.status =
        JobStatus.downloading) ∧
    (startDownload m id url t command args outputPath now).2.1.endTime = none ∧
    id ∈ (startDownload m id url t command args outputPath now).1.activeDownloads := by
  refine ⟨rfl, rfl, rfl, ?_, Or.inr rfl, rfl, ?_⟩
  · exact mapGet_mapSet_self _ _ _
  · exact mem_setAdd_self _ _

/-- C10. A second `startDownload` with an id already present in the
store (in any state) silently replaces the stored record with a fresh
pending record (immediately moved to `downloading` by the synchronous
hand-off), re-adds the id to the active set, and returns the id; the
returned record and id do not depend on the pre-existing record at all, so
no collision is signalled to the caller. -/
theorem claim_C10_same_id_replaces (m : Manager) (id url : String)
    (t : JobType) (command : String) (args : List String)
    (outputPath : String) (now : Int) (jOld : DownloadJob)
    (hold : mapGet m.jobs id = some jOld) :
    (startDownload m id url t command args outputPath now).2.2 = id ∧
    (mkJob id url t outputPath now).status = JobStatus.pending ∧
    getJob (startDownload m id url t command args outputPath now).1 id =
      some { mkJob id url t outputPath now with status := JobStatus.downloading } ∧
    id ∈ (startDownload m id url t command args outputPath now).1.activeDownloads ∧
    (startDownload m id url t command args outputPath now).2 =
      (startDownload Manager.empty id url t command args outputPath now).2 := by
  refine ⟨rfl, rfl, ?_, mem_setAdd_self _ _, rfl⟩
  exact mapGet_mapSet_self _ _ _

/-- Witness for C10: restarting id `dup` over an existing running record
yields the fresh downloading record in the store and keeps `dup` active. -/
theorem claim_C10_same_id_replaces_witness :
    getJob (startDownload wMgr "dup" "u2" JobType.audio "yt-dlp" [] "/p" 50).1 "dup" =
      some { mkJob "dup" "u2" JobType.audio "/p" 50 with
             status := JobStatus.downloading } ∧
    "dup" ∈ (startDownload wMgr "dup" "u2" JobType.audio "yt-dlp" [] "/p" 50).1.activeDownloads := by
  have h := claim_C10_same_id_replaces wMgr "dup" "u2" JobType.audio "yt-dlp"
    [] "/p" 50 wOld (by decide)
  exact ⟨h.2.2.1, h.2.2.2.1⟩

/-- C9. `checkDownloads` on an empty store returns the single-line
no-jobs message; on the store with one active, one completed and one failed
job it returns the three sections in order, each identifier appearing in
exactly its own state's section, with the stored error detail rendered in
the failed section (the function is total, so it never raises). -/
theorem claim_C9_summarize_report :
    (∀ (m : Manager) (now : Int), m.jobs = [] →
      checkDownloads m now = "No downloads found.") ∧
    checkDownloads exManager 5000 =
      "Download Status Summary:\n\n" ++
        exActiveSection ++ exCompletedSection ++ exFailedSection ∧
    (getAllJobs exManager).map DownloadJob.status =
      [JobStatus.downloading, JobStatus.completed, JobStatus.failed] ∧
    ("dlA".data <:+: exActiveSection.data ∧
      ¬("dlA".data <:+: exCompletedSection.data) ∧
      ¬("dlA".data <:+: exFailedSection.data)) ∧
    ("dlB".data <:+: exCompletedSection.data ∧
      ¬("dlB".data <:+: exActiveSection.data) ∧
      ¬("dlB".data <:+: exFailedSection.data)) ∧
    ("dlC".data <:+: exFailedSection.data ∧
      ¬("dlC".data <:+: exActiveSection.data) ∧
      ¬("dlC".data <:+: exCompletedSection.data)) ∧
    "boom".data <:+: exFailedSection.data := by
  refine ⟨?_, by decide, by decide, by decide, by decide, by decide, by decide⟩
  intro m now h
  simp [checkDownloads, getAllJobs, h]

/-- Witness for C9: the empty store renders the no-jobs message. -/
theorem claim_C9_summarize_report_witness :
    checkDownloads Manager.empty 0 = "No downloads found." := by
  have h := claim_C9_summarize_report
  exact h.1 Manager.empty 0 rfl

end DM
